import Mathlib

/-!
# etcdfs: namespace projection of an etcd key space as a read-only filesystem

A shallow embedding of `etcdfs.go` (package `main`) and of the parts of Go's
standard library it calls (`path/filepath` on Unix: `Clean`, `Join`, `Split`;
`strings.Join`), followed by theorems about the embedded functions.

Conventions of the embedding

* A Go `string` is an immutable sequence of bytes: `GoString = List UInt8`.
* `*Dir` is `DirPtr` (nil, or a pointer to a struct with its two fields). Handles
  are never mutated, so a pointer is identified with the value it points to.
* The package-level etcd client `etc` is an explicit argument: a `Store` maps a
  key to what `etc.Get(key, true, true)` returns, the pair `(res, err)`.
* `time.Now()` is an explicit argument `now`.
* `fmt.Printf` logging has no effect on any returned value and is left out.
* A Go result pair `(value, error)` is a Lean pair of options (`none` is nil).
* A method that can dereference a nil pointer has an `Outcome`: it returned its
  results, or it panicked.
-/

namespace Etcdfs

set_option linter.dupNamespace false

/-! ## Strings -/

/-- A Go string: a sequence of bytes. -/
abbrev GoString := List UInt8

/-- The bytes of a string literal (its UTF-8 encoding, as in Go source text). -/
def bytes (s : String) : GoString := s.toUTF8.data.toList

/-- The constant `filepath.Separator` on Unix, the byte of '/'. -/
def Separator : UInt8 := 47

/-- The byte of '.'. -/
def dot : UInt8 := 46

/-- The function `os.IsPathSeparator` on Unix. -/
def IsPathSeparator (c : UInt8) : Prop := c = Separator

instance (c : UInt8) : Decidable (IsPathSeparator c) := by
  unfold IsPathSeparator; infer_instance

/-- The function `strings.Join(elems, sep)`. -/
def stringsJoin : List GoString → GoString → GoString
  | [], _ => []
  | [e], _ => e
  | e :: e2 :: es, sep => e ++ sep ++ stringsJoin (e2 :: es) sep

/-! ## `path/filepath` (Unix) -/

/-- The test `r+k == n || os.IsPathSeparator(path[r+k])` of `filepath.Clean`,
on the part of `path` that starts at index `r+k`. -/
def endOrSep : GoString → Bool
  | [] => true
  | c :: _ => decide (IsPathSeparator c)

/-- The backtracking loop of the `..` case of `filepath.Clean`,
`for out.w > dotdot && !os.IsPathSeparator(out.index(out.w)) { out.w-- }`,
started at write index `w`; the result is the final write index. -/
def backtrackLoop (buf : GoString) (dotdot : Nat) : Nat → Nat
  | 0 => 0
  | w + 1 =>
    if w + 1 > dotdot ∧ ¬ IsPathSeparator (buf.getD (w + 1) 0) then backtrackLoop buf dotdot w
    else w + 1

/-- The main loop `for r < n { switch ... }` of `filepath.Clean`.

The argument `rest` is `path[r:]`, `out` is the content `buf[:w]` of the output
buffer (so `out.w` is `out.length`; the library's `lazybuf` stores this content
without allocating while it is still an initial part of `path`), and `dotdot` is
the index where `..` must stop. Every iteration consumes at least one
byte of `rest`; the first argument counts the iterations still allowed and
`Clean` starts it at `len(path)`. -/
def cleanLoop (rooted : Bool) : Nat → GoString → GoString → Nat → GoString
  | 0, _, out, _ => out
  | fuel + 1, rest, out, dotdot =>
    match rest with
    | [] => out
    | c :: t =>
      if IsPathSeparator c then
        -- empty path element
        cleanLoop rooted fuel t out dotdot
      else if c = dot ∧ endOrSep t = true then
        -- . element
        cleanLoop rooted fuel t out dotdot
      else if c = dot ∧ t.head? = some dot ∧ endOrSep t.tail = true then
        -- .. element: remove to last separator
        if out.length > dotdot then
          -- can backtrack
          cleanLoop rooted fuel t.tail
            (out.take (backtrackLoop out dotdot (out.length - 1))) dotdot
        else if rooted = false then
          -- cannot backtrack, but not rooted, so append .. element
          let out1 := if out.length > 0 then out ++ [Separator] else out
          let out2 := out1 ++ [dot, dot]
          cleanLoop rooted fuel t.tail out2 out2.length
        else
          cleanLoop rooted fuel t.tail out dotdot
      else
        -- real path element: add slash if needed, then copy the element
        let out1 :=
          if (rooted = true ∧ out.length ≠ 1) ∨ (rooted = false ∧ out.length ≠ 0) then
            out ++ [Separator]
          else out
        cleanLoop rooted fuel ((c :: t).dropWhile (fun b => decide (¬ IsPathSeparator b)))
          (out1 ++ (c :: t).takeWhile (fun b => decide (¬ IsPathSeparator b))) dotdot

/-- The function `filepath.Clean` on Unix (no volume name, `FromSlash` is the
identity). -/
def Clean (path : GoString) : GoString :=
  match path with
  | [] => [dot]
  | c :: t =>
    let rooted : Bool := decide (IsPathSeparator c)
    let out :=
      if rooted = true then cleanLoop rooted (c :: t).length t [Separator] 1
      else cleanLoop rooted (c :: t).length (c :: t) [] 0
    -- Turn empty string into "."
    if out.length = 0 then [dot] else out

/-- The function `filepath.Join(elem...)`: the elements from the first non-empty one on, joined
with the separator and cleaned; the empty string when all are empty. -/
def Join : List GoString → GoString
  | [] => []
  | e :: es => if e ≠ [] then Clean (stringsJoin (e :: es) [Separator]) else Join es

/-- The scan of `filepath.Split`,
`i := len(path) - 1; for i >= 0 && !os.IsPathSeparator(path[i]) { i-- }`;
the argument and the result are `i + 1`. -/
def splitLoop (path : GoString) : Nat → Nat
  | 0 => 0
  | i + 1 => if ¬ IsPathSeparator (path.getD i 0) then splitLoop path i else i + 1

/-- The function `filepath.Split(path)` on Unix: `(path[:i+1], path[i+1:])`. -/
def Split (path : GoString) : GoString × GoString :=
  let i1 := splitLoop path path.length
  (path.take i1, path.drop i1)

/-! ## Data model -/

/-- A value of type `*Dir`: nil, or a pointer to a `Dir` struct, given by the
struct's fields `Name` and `Dir`. -/
inductive DirPtr where
  | nil : DirPtr
  | ptr (Name : GoString) (Dir : DirPtr) : DirPtr
deriving DecidableEq

/-- The type `Dir struct { Name string; Dir *Dir }`. -/
structure Dir where
  Name : GoString := []
  Dir : DirPtr := DirPtr.nil
deriving DecidableEq

/-- The address `&d` of a `Dir` value `d`. -/
def Dir.addr (d : Etcdfs.Dir) : DirPtr := DirPtr.ptr d.Name d.Dir

/-- The type `File struct { Name string; Dir *Dir }`. -/
structure File where
  Name : GoString := []
  Dir : DirPtr := DirPtr.nil
deriving DecidableEq

/-- A value of interface type `fs.Node` as this program produces it: a `Dir` or a `File`. -/
inductive FsNode where
  | dir (d : Dir)
  | file (f : File)
deriving DecidableEq

/-- The type `etcd.Node`: the fields the program reads. `Nodes` is Go's `[]*Node`:
`none` for a nil slice, and each element a pointer, `none` when it is nil (the
client decodes a JSON `null` child into a nil pointer). -/
inductive Node where
  | mk (Key : GoString) (Value : GoString) (Dir : Bool)
      (Nodes : Option (List (Option Node)))

/-- Field `Key`. -/
def Node.Key : Node → GoString
  | .mk k _ _ _ => k

/-- Field `Value`. -/
def Node.Value : Node → GoString
  | .mk _ v _ _ => v

/-- Field `Dir`. -/
def Node.Dir : Node → Bool
  | .mk _ _ d _ => d

/-- Field `Nodes`. -/
def Node.Nodes : Node → Option (List (Option Node))
  | .mk _ _ _ ns => ns

/-- The type `etcd.Response`: the field the program reads, `Node *Node`. -/
structure Response where
  Node : Option Node

/-- The two results `(res *etcd.Response, err error)` of `etc.Get`; an error is
given by its message. -/
structure GetResult where
  res : Option Response
  err : Option GoString

/-- The etcd client as the program uses it: `etc.Get(key, true, true)`. -/
abbrev Store := GoString → GetResult

/-- A `time.Time`, in nanoseconds since the zero `Time` (so `time.Time{}` is 0). -/
abbrev Time := Int

/-- The constant `time.Hour`, a `time.Duration` in nanoseconds. -/
def Hour : Int := 3600 * 1000000000

/-- The mode bit `os.ModeDir`. -/
def ModeDir : Nat := 2 ^ 31

/-- The mask `os.ModePerm`, the permission bits of a mode. -/
def ModePerm : Nat := 0o777

/-- The type `fuse.Attr`: the fields the program sets; every other field keeps its zero
value on every path. -/
structure Attr where
  Mode : Nat := 0
  Size : Nat := 0
  Mtime : Time := 0
  Atime : Time := 0
  Ctime : Time := 0
deriving DecidableEq

/-- The type `fuse.DirentType`. -/
inductive DirentType where
  | DT_Unknown | DT_Socket | DT_Link | DT_File | DT_Block | DT_Dir | DT_Char | DT_FIFO
deriving DecidableEq

/-- The type `fuse.Dirent` (field `Type` is written `Typ`); the zero value has type
`DT_Unknown` and an empty name. -/
structure Dirent where
  Inode : Nat := 0
  Typ : DirentType := DirentType.DT_Unknown
  Name : GoString := []
deriving DecidableEq

/-- How a call ended: it returned the value `v`, or it panicked (here always on a
nil pointer dereference). -/
inductive Outcome (α : Type) where
  | returned (v : α) : Outcome α
  | panicked : Outcome α
deriving DecidableEq

/-- The type `fuse.Errno`. -/
abbrev Errno := Nat

/-- The error `fuse.ENOENT`. -/
def ENOENT : Errno := 2

/-! ## The program -/

/-- The method `FS.Root`: the root handle `Dir{}`, with no error. -/
def Root : Option FsNode × Option Errno := (some (FsNode.dir {}), none)

/-- The function `filePath(d, filename)`. -/
def filePath : DirPtr → GoString → GoString
  | DirPtr.nil, filename => filename
  | DirPtr.ptr name parent, filename => filePath parent (Join [name, filename])

/-- The method `Dir.Attr`. -/
def Dir.Attr (etc : Store) (now : Time) (d : Etcdfs.Dir) : Attr :=
  let r := etc (filePath d.addr [])
  match r.err with
  | some _ => {}
  | none =>
    match r.res with
    | none => {}
    | some res =>
      match res.Node with
      | none => {}
      | some _ =>
        let mtime : Time := now + Hour * 24 * 180 * (-1)
        { Mode := ModeDir ||| 0o555, Size := 0, Mtime := mtime, Atime := mtime, Ctime := mtime }

/-- The method `Dir.Lookup`. -/
def Dir.Lookup (etc : Store) (d : Etcdfs.Dir) (name : GoString) : Option FsNode × Option Errno :=
  let r := etc (filePath d.addr name)
  match r.err with
  | some _ => (none, some ENOENT)
  | none =>
    match r.res with
    | none => (none, some ENOENT)
    | some res =>
      match res.Node with
      | none => (none, some ENOENT)
      | some node =>
        if node.Dir = true then (some (FsNode.dir { Name := name, Dir := d.addr }), none)
        else (some (FsNode.file { Name := name, Dir := d.addr }), none)

/-- The body of the `for i, node := range res.Node.Nodes` loop of `Dir.ReadDir`,
run over the children from index `i` on. Reading `node.Key` of a nil `node`
panics; the index `i + 2` is always inside `dirList`. -/
def readDirLoop : List (Option Node) → Nat → List Dirent → Outcome (List Dirent)
  | [], _, dirList => Outcome.returned dirList
  | none :: _, _, _ => Outcome.panicked
  | some node :: nodes, i, dirList =>
    let fileName := (Split node.Key).2
    let fileType := if node.Dir = true then DirentType.DT_Dir else DirentType.DT_File
    readDirLoop nodes (i + 1) (dirList.set (i + 2) { Name := fileName, Typ := fileType })

/-- The length `len(res.Node.Nodes)`, 0 for a nil slice. -/
def lenNodes : Option (List (Option Node)) → Nat
  | none => 0
  | some ns => ns.length

/-- The method `Dir.ReadDir`. -/
def Dir.ReadDir (etc : Store) (d : Etcdfs.Dir) :
    Outcome (Option (List Dirent) × Option Errno) :=
  let r := etc (filePath d.addr [])
  match r.err with
  | some _ => Outcome.returned (none, some ENOENT)
  | none =>
    match r.res with
    | none => Outcome.returned (none, some ENOENT)
    | some res =>
      match res.Node with
      | none => Outcome.returned (none, some ENOENT)
      | some node =>
        let dirList0 : List Dirent := List.replicate (lenNodes node.Nodes + 2) {}
        let dirList1 := dirList0.set 0 { Name := bytes ".", Typ := DirentType.DT_Dir }
        let dirList2 := dirList1.set 1 { Name := bytes "..", Typ := DirentType.DT_Dir }
        match node.Nodes with
        | none => Outcome.returned (some dirList2, none)
        | some nodes =>
          match readDirLoop nodes 0 dirList2 with
          | Outcome.panicked => Outcome.panicked
          | Outcome.returned dirList3 => Outcome.returned (some dirList3, none)

/-- The method `File.Attr`. -/
def File.Attr (etc : Store) (now : Time) (f : File) : Attr :=
  let r := etc (filePath f.Dir f.Name)
  match r.err with
  | some _ => {}
  | none =>
    match r.res with
    | none => {}
    | some res =>
      match res.Node with
      | none => {}
      | some node =>
        let mtime : Time := now
        { Mode := 0o444, Size := node.Value.length % 2 ^ 64,
          Mtime := mtime, Atime := mtime, Ctime := mtime }

/-- The method `File.ReadAll`. -/
def File.ReadAll (etc : Store) (f : File) : Option GoString × Option Errno :=
  let r := etc (filePath f.Dir f.Name)
  match r.err with
  | some _ => (none, some ENOENT)
  | none =>
    match r.res with
    | none => (none, some ENOENT)
    | some res =>
      match res.Node with
      | none => (none, some ENOENT)
      | some node => (some node.Value, none)

/-- The conditions under which every operation gives up after its get:
`err != nil`, or `res == nil || res.Node == nil`. -/
def getFailed (r : GetResult) : Prop :=
  r.err ≠ none ∨ r.res = none ∨ ∃ res, r.res = some res ∧ res.Node = none

/-- The innermost of the handles nested under `d` with the names given, outermost
first; each is built as `Dir.Lookup` builds it, `Dir{Name: name, Dir: &d}`. -/
def nestDir : Etcdfs.Dir → List GoString → Etcdfs.Dir
  | d, [] => d
  | d, name :: names => nestDir { Name := name, Dir := d.addr } names

/-- A real path element for `filepath.Clean`: not empty, without a separator,
and neither "." nor "..". -/
def plainElem (s : GoString) : Prop :=
  s ≠ [] ∧ Separator ∉ s ∧ s ≠ [dot] ∧ s ≠ [dot, dot]

/-! ## Concrete inputs -/

/-- A store that answers the key "cfg/port" with a leaf of value "8080", the key
"cfg" with a directory holding that leaf, and every other key with an error. -/
def cfgStore : Store := fun key =>
  if key = bytes "cfg/port" then
    { res := some { Node := some (Node.mk (bytes "/cfg/port") (bytes "8080") false none) },
      err := none }
  else if key = bytes "cfg" then
    { res := some { Node := some (Node.mk (bytes "/cfg") [] true
        (some [some (Node.mk (bytes "/cfg/port") (bytes "8080") false none)])) },
      err := none }
  else { res := none, err := some (bytes "100: Key not found") }

/-- A store that answers every key, with no error, with the directory "/cfg"
whose children are the leaf "/cfg/port" and a nil pointer: the client's decoding
of a response whose `nodes` array is the leaf followed by `null`. -/
def nilChildStore : Store := fun _ =>
  { res := some { Node := some (Node.mk (bytes "/cfg") [] true
      (some [some (Node.mk (bytes "/cfg/port") (bytes "8080") false none), none])) },
    err := none }

/-- A store that answers every key with an empty directory node. -/
def emptyDirStore : Store := fun _ =>
  { res := some { Node := some (Node.mk [] [] true none) }, err := none }

/-! ## Helper lemmas: the operations by store outcome -/

theorem getFailed_ok (node : Node) :
    ¬ getFailed { res := some { Node := some node }, err := none } := by
  simp [getFailed]

theorem getFailed_cases (r : GetResult) :
    getFailed r ∨ ∃ node, r = { res := some { Node := some node }, err := none } := by
  obtain ⟨res, err⟩ := r
  cases err with
  | some e => exact Or.inl (by simp [getFailed])
  | none =>
    cases res with
    | none => exact Or.inl (by simp [getFailed])
    | some res =>
      obtain ⟨node⟩ := res
      cases node with
      | none => exact Or.inl (by simp [getFailed])
      | some node => exact Or.inr ⟨node, rfl⟩

theorem Lookup_of_failed (etc : Store) (d : Etcdfs.Dir) (name : GoString)
    (h : getFailed (etc (filePath d.addr name))) :
    Dir.Lookup etc d name = (none, some ENOENT) := by
  unfold Dir.Lookup
  generalize etc (filePath d.addr name) = r at h
  obtain ⟨res, err⟩ := r
  cases err with
  | some e => rfl
  | none =>
    cases res with
    | none => rfl
    | some res =>
      obtain ⟨node⟩ := res
      cases node with
      | none => rfl
      | some node => exact absurd h (getFailed_ok node)

theorem Lookup_of_ok (etc : Store) (d : Etcdfs.Dir) (name : GoString) (node : Node)
    (h : etc (filePath d.addr name) = { res := some { Node := some node }, err := none }) :
    Dir.Lookup etc d name =
      (some (if node.Dir = true then FsNode.dir { Name := name, Dir := d.addr }
             else FsNode.file { Name := name, Dir := d.addr }), none) := by
  unfold Dir.Lookup
  rw [h]
  by_cases hd : node.Dir = true <;> simp [hd]

theorem ReadDir_of_failed (etc : Store) (d : Etcdfs.Dir)
    (h : getFailed (etc (filePath d.addr []))) :
    Dir.ReadDir etc d = Outcome.returned (none, some ENOENT) := by
  unfold Dir.ReadDir
  generalize etc (filePath d.addr []) = r at h
  obtain ⟨res, err⟩ := r
  cases err with
  | some e => rfl
  | none =>
    cases res with
    | none => rfl
    | some res =>
      obtain ⟨node⟩ := res
      cases node with
      | none => rfl
      | some node => exact absurd h (getFailed_ok node)

theorem ReadAll_of_failed (etc : Store) (f : File)
    (h : getFailed (etc (filePath f.Dir f.Name))) :
    File.ReadAll etc f = (none, some ENOENT) := by
  unfold File.ReadAll
  generalize etc (filePath f.Dir f.Name) = r at h
  obtain ⟨res, err⟩ := r
  cases err with
  | some e => rfl
  | none =>
    cases res with
    | none => rfl
    | some res =>
      obtain ⟨node⟩ := res
      cases node with
      | none => rfl
      | some node => exact absurd h (getFailed_ok node)

theorem ReadAll_of_ok (etc : Store) (f : File) (node : Node)
    (h : etc (filePath f.Dir f.Name) = { res := some { Node := some node }, err := none }) :
    File.ReadAll etc f = (some node.Value, none) := by
  unfold File.ReadAll
  rw [h]

theorem FileAttr_of_ok (etc : Store) (now : Time) (f : File) (node : Node)
    (h : etc (filePath f.Dir f.Name) = { res := some { Node := some node }, err := none }) :
    File.Attr etc now f =
      { Mode := 0o444, Size := node.Value.length % 2 ^ 64,
        Mtime := now, Atime := now, Ctime := now } := by
  unfold File.Attr
  rw [h]

theorem FileAttr_of_failed (etc : Store) (now : Time) (f : File)
    (h : getFailed (etc (filePath f.Dir f.Name))) :
    File.Attr etc now f = {} := by
  unfold File.Attr
  generalize etc (filePath f.Dir f.Name) = r at h
  obtain ⟨res, err⟩ := r
  cases err with
  | some e => rfl
  | none =>
    cases res with
    | none => rfl
    | some res =>
      obtain ⟨node⟩ := res
      cases node with
      | none => rfl
      | some node => exact absurd h (getFailed_ok node)

theorem DirAttr_of_ok (etc : Store) (now : Time) (d : Etcdfs.Dir) (node : Node)
    (h : etc (filePath d.addr []) = { res := some { Node := some node }, err := none }) :
    Dir.Attr etc now d =
      { Mode := ModeDir ||| 0o555, Size := 0, Mtime := now + Hour * 24 * 180 * (-1),
        Atime := now + Hour * 24 * 180 * (-1), Ctime := now + Hour * 24 * 180 * (-1) } := by
  unfold Dir.Attr
  rw [h]

theorem DirAttr_of_failed (etc : Store) (now : Time) (d : Etcdfs.Dir)
    (h : getFailed (etc (filePath d.addr []))) :
    Dir.Attr etc now d = {} := by
  unfold Dir.Attr
  generalize etc (filePath d.addr []) = r at h
  obtain ⟨res, err⟩ := r
  cases err with
  | some e => rfl
  | none =>
    cases res with
    | none => rfl
    | some res =>
      obtain ⟨node⟩ := res
      cases node with
      | none => rfl
      | some node => exact absurd h (getFailed_ok node)

theorem ReadDir_of_ok (etc : Store) (d : Etcdfs.Dir) (node : Node)
    (h : etc (filePath d.addr []) = { res := some { Node := some node }, err := none }) :
    Dir.ReadDir etc d =
      (match node.Nodes with
        | none =>
          Outcome.returned
            (some (((List.replicate (lenNodes node.Nodes + 2) ({} : Dirent)).set 0
              { Name := bytes ".", Typ := DirentType.DT_Dir }).set 1
              { Name := bytes "..", Typ := DirentType.DT_Dir }), none)
        | some nodes =>
          match readDirLoop nodes 0
            (((List.replicate (lenNodes node.Nodes + 2) ({} : Dirent)).set 0
              { Name := bytes ".", Typ := DirentType.DT_Dir }).set 1
              { Name := bytes "..", Typ := DirentType.DT_Dir }) with
          | Outcome.panicked => Outcome.panicked
          | Outcome.returned dirList3 => Outcome.returned (some dirList3, none)) := by
  unfold Dir.ReadDir
  rw [h]

/-- With a node in the response, `ReadDir` returns a list and a nil error, or it
panics. -/
theorem ReadDir_ok_cases (etc : Store) (d : Etcdfs.Dir) (node : Node)
    (h : etc (filePath d.addr []) = { res := some { Node := some node }, err := none }) :
    (∃ dirList, Dir.ReadDir etc d = Outcome.returned (some dirList, none)) ∨
      Dir.ReadDir etc d = Outcome.panicked := by
  rw [ReadDir_of_ok etc d node h]
  cases node.Nodes with
  | none => exact Or.inl ⟨_, rfl⟩
  | some nodes =>
    simp only
    cases readDirLoop nodes 0
      (((List.replicate (lenNodes (some nodes) + 2) ({} : Dirent)).set 0
        { Name := bytes ".", Typ := DirentType.DT_Dir }).set 1
        { Name := bytes "..", Typ := DirentType.DT_Dir }) with
    | panicked => exact Or.inr rfl
    | returned dl => exact Or.inl ⟨dl, rfl⟩

/-! ## Claims about store outcomes and synthesized attributes -/

/-- C2. Each of `Dir.Lookup`, `Dir.ReadDir` and `File.ReadAll` returns the pair
(nil, `fuse.ENOENT`) exactly when its get returned an error, a nil response or a
response with a nil node; so every kind of store failure yields the same ENOENT
and never a success. `Lookup` and `ReadAll` return a nil error exactly when the
get did not fail; so does `ReadDir` whenever it returns, and it panics only on a
get that did not fail. -/
theorem C2_enoent_iff_get_failed (etc : Store) (d : Etcdfs.Dir) (name : GoString) (f : File) :
    (Dir.Lookup etc d name = (none, some ENOENT) ↔ getFailed (etc (filePath d.addr name))) ∧
    ((Dir.Lookup etc d name).2 = none ↔ ¬ getFailed (etc (filePath d.addr name))) ∧
    (Dir.ReadDir etc d = Outcome.returned (none, some ENOENT) ↔
      getFailed (etc (filePath d.addr []))) ∧
    ((∀ r, Dir.ReadDir etc d = Outcome.returned r →
        (r.2 = none ↔ ¬ getFailed (etc (filePath d.addr [])))) ∧
      (Dir.ReadDir etc d = Outcome.panicked → ¬ getFailed (etc (filePath d.addr [])))) ∧
    (File.ReadAll etc f = (none, some ENOENT) ↔ getFailed (etc (filePath f.Dir f.Name))) ∧
    ((File.ReadAll etc f).2 = none ↔ ¬ getFailed (etc (filePath f.Dir f.Name))) := by
  refine ⟨?_, ?_, ?_, ?_, ?_, ?_⟩
  · rcases getFailed_cases (etc (filePath d.addr name)) with hf | ⟨node, hn⟩
    · simp [Lookup_of_failed etc d name hf, hf]
    · have hnf : ¬ getFailed (etc (filePath d.addr name)) := hn ▸ getFailed_ok node
      simp [Lookup_of_ok etc d name node hn, hnf]
  · rcases getFailed_cases (etc (filePath d.addr name)) with hf | ⟨node, hn⟩
    · simp [Lookup_of_failed etc d name hf, hf]
    · have hnf : ¬ getFailed (etc (filePath d.addr name)) := hn ▸ getFailed_ok node
      simp [Lookup_of_ok etc d name node hn, hnf]
  · rcases getFailed_cases (etc (filePath d.addr [])) with hf | ⟨node, hn⟩
    · simp [ReadDir_of_failed etc d hf, hf]
    · have hnf : ¬ getFailed (etc (filePath d.addr [])) := hn ▸ getFailed_ok node
      rcases ReadDir_ok_cases etc d node hn with ⟨dl, hdl⟩ | hp
      · simp [hdl, hnf]
      · simp [hp, hnf]
  · rcases getFailed_cases (etc (filePath d.addr [])) with hf | ⟨node, hn⟩
    · rw [ReadDir_of_failed etc d hf]
      refine ⟨fun r hr => ?_, fun hp => by simp at hp⟩
      have hr2 : r = (none, some ENOENT) := (Outcome.returned.inj hr).symm
      subst hr2
      simp [hf]
    · have hnf : ¬ getFailed (etc (filePath d.addr [])) := hn ▸ getFailed_ok node
      refine ⟨fun r hr => ?_, fun _ => hnf⟩
      rcases ReadDir_ok_cases etc d node hn with ⟨dl, hdl⟩ | hp
      · rw [hdl] at hr
        have hr2 : r = (some dl, none) := (Outcome.returned.inj hr).symm
        subst hr2
        simp [hnf]
      · rw [hp] at hr
        simp at hr
  · rcases getFailed_cases (etc (filePath f.Dir f.Name)) with hf | ⟨node, hn⟩
    · simp [ReadAll_of_failed etc f hf, hf]
    · have hnf : ¬ getFailed (etc (filePath f.Dir f.Name)) := hn ▸ getFailed_ok node
      simp [ReadAll_of_ok etc f node hn, hnf]
  · rcases getFailed_cases (etc (filePath f.Dir f.Name)) with hf | ⟨node, hn⟩
    · simp [ReadAll_of_failed etc f hf, hf]
    · have hnf : ¬ getFailed (etc (filePath f.Dir f.Name)) := hn ▸ getFailed_ok node
      simp [ReadAll_of_ok etc f node hn, hnf]

/-- C3. When the get of `Dir.Lookup(n)` on handle `d` carries a node, the lookup
returns, with a nil error, a `Dir` with `Name = n` and `Dir = &d` if the node's
directory flag is set, and otherwise a `File` with `Name = n` and `Dir = &d`. -/
theorem C3_lookup_builds_child_handle (etc : Store) (d : Etcdfs.Dir) (n : GoString) (node : Node)
    (h : etc (filePath d.addr n) = { res := some { Node := some node }, err := none }) :
    (node.Dir = true →
      Dir.Lookup etc d n = (some (FsNode.dir { Name := n, Dir := d.addr }), none)) ∧
    (node.Dir = false →
      Dir.Lookup etc d n = (some (FsNode.file { Name := n, Dir := d.addr }), none)) := by
  rw [Lookup_of_ok etc d n node h]
  constructor
  · intro hd; simp [hd]
  · intro hd; simp [hd]

/-- Witness of C3: looking up "port" in the handle of "cfg" under the root. -/
theorem C3_lookup_builds_child_handle_witness :
    Dir.Lookup cfgStore { Name := bytes "cfg", Dir := DirPtr.ptr [] DirPtr.nil } (bytes "port") =
      (some (FsNode.file
        { Name := bytes "port", Dir := DirPtr.ptr (bytes "cfg") (DirPtr.ptr [] DirPtr.nil) }),
       none) :=
  (C3_lookup_builds_child_handle cfgStore { Name := bytes "cfg", Dir := DirPtr.ptr [] DirPtr.nil }
    (bytes "port") (Node.mk (bytes "/cfg/port") (bytes "8080") false none) rfl).2 rfl

/-- C4. When the get for a file's key carries a node whose value is `V` (possibly
empty; as for every Go string, the length of `V` fits an `int`), `File.ReadAll`
returns exactly `V` with a nil error and `File.Attr`, at any query time, reports
`Size` equal to the byte length of `V`, the length of what `ReadAll` returns. -/
theorem C4_readall_returns_value_and_size (etc : Store) (f : File) (node : Node) (now : Time)
    (h : etc (filePath f.Dir f.Name) = { res := some { Node := some node }, err := none })
    (hlen : node.Value.length < 2 ^ 63) :
    File.ReadAll etc f = (some node.Value, none) ∧
    (File.Attr etc now f).Size = node.Value.length ∧
    (File.ReadAll etc f).1.map List.length = some (File.Attr etc now f).Size := by
  have hmod : node.Value.length % 2 ^ 64 = node.Value.length :=
    Nat.mod_eq_of_lt (lt_trans hlen (by norm_num))
  rw [ReadAll_of_ok etc f node h, FileAttr_of_ok etc now f node h]
  refine ⟨rfl, hmod, ?_⟩
  show some node.Value.length = some (node.Value.length % 2 ^ 64)
  rw [hmod]

/-- Witness of C4: the file "port" under "cfg", whose value is "8080". -/
theorem C4_readall_returns_value_and_size_witness :
    File.ReadAll cfgStore
        { Name := bytes "port", Dir := DirPtr.ptr (bytes "cfg") (DirPtr.ptr [] DirPtr.nil) } =
      (some (bytes "8080"), none) ∧
    (File.Attr cfgStore 63000000000000000000
        { Name := bytes "port", Dir := DirPtr.ptr (bytes "cfg") (DirPtr.ptr [] DirPtr.nil) }).Size
      = 4 :=
  have h := C4_readall_returns_value_and_size cfgStore
    { Name := bytes "port", Dir := DirPtr.ptr (bytes "cfg") (DirPtr.ptr [] DirPtr.nil) }
    (Node.mk (bytes "/cfg/port") (bytes "8080") false none) 63000000000000000000 rfl
    (by decide)
  ⟨h.1, h.2.1⟩

/-- C7, as stated, fails: the timestamps of `Dir.Attr` are not one fixed constant.
Two queries of the root handle against the same store response, made one second
apart, report different modification times. -/
theorem C7_counterexample_mtime_not_constant :
    (Dir.Attr emptyDirStore 63000000000000000000 {}).Mtime ≠
      (Dir.Attr emptyDirStore 63000000001000000000 {}).Mtime := by
  decide

/-- C7, amended. When the get of `Dir.Attr` carries a node, the result has the
directory bit set, permission bits 0555 (no write bit), `Size = 0`, and
`Mtime = Atime = Ctime =` the query time minus 180 days (15552000000000000 ns):
earlier than the query time, and independent of what the store returned. -/
theorem C7_dir_attr_amended (etc : Store) (now : Time) (d : Etcdfs.Dir) (node : Node)
    (h : etc (filePath d.addr []) = { res := some { Node := some node }, err := none }) :
    (Dir.Attr etc now d).Mode = ModeDir ||| 0o555 ∧
    (Dir.Attr etc now d).Mode &&& ModeDir = ModeDir ∧
    (Dir.Attr etc now d).Mode &&& ModePerm = 0o555 ∧
    (Dir.Attr etc now d).Mode &&& 0o222 = 0 ∧
    (Dir.Attr etc now d).Size = 0 ∧
    (Dir.Attr etc now d).Mtime = now - 15552000000000000 ∧
    (Dir.Attr etc now d).Atime = now - 15552000000000000 ∧
    (Dir.Attr etc now d).Ctime = now - 15552000000000000 ∧
    (Dir.Attr etc now d).Mtime < now := by
  rw [DirAttr_of_ok etc now d node h]
  have hdur : Hour * 24 * 180 * (-1) = -15552000000000000 := by decide
  have hoff : now + Hour * 24 * 180 * (-1) = now - 15552000000000000 := by
    rw [hdur]; rfl
  have hdir : (ModeDir ||| 0o555) &&& ModeDir = ModeDir := by decide
  have hperm : (ModeDir ||| 0o555) &&& ModePerm = 0o555 := by decide
  have hwrite : (ModeDir ||| 0o555) &&& 0o222 = 0 := by decide
  refine ⟨rfl, hdir, hperm, hwrite, rfl, hoff, hoff, hoff, ?_⟩
  show now + Hour * 24 * 180 * (-1) < now
  rw [hoff]
  exact Int.sub_lt_self now (by decide)

/-- Witness of C7 (amended): the attributes of the root handle. -/
theorem C7_dir_attr_amended_witness :
    (Dir.Attr emptyDirStore 63000000000000000000 {}).Mode = 2147484013 ∧
    (Dir.Attr emptyDirStore 63000000000000000000 {}).Mtime = 62984448000000000000 :=
  have h := C7_dir_attr_amended emptyDirStore 63000000000000000000 {} (Node.mk [] [] true none) rfl
  ⟨h.1.trans (by decide), h.2.2.2.2.2.1.trans (by decide)⟩

/-- C8. When the get of `Dir.Attr`, respectively of `File.Attr`, returned an
error, a nil response or a response with a nil node, the query returns the
zero-valued `fuse.Attr{}` (mode 0, size 0, zero timestamps), whichever of the
three it was and whatever the query time; the operations have no error result. -/
theorem C8_attr_zero_on_failure (etc : Store) (now : Time) (d : Etcdfs.Dir) (f : File) :
    (getFailed (etc (filePath d.addr [])) →
      Dir.Attr etc now d = { Mode := 0, Size := 0, Mtime := 0, Atime := 0, Ctime := 0 }) ∧
    (getFailed (etc (filePath f.Dir f.Name)) →
      File.Attr etc now f = { Mode := 0, Size := 0, Mtime := 0, Atime := 0, Ctime := 0 }) :=
  ⟨fun h => DirAttr_of_failed etc now d h, fun h => FileAttr_of_failed etc now f h⟩

/-- Witness of C8: an error, a nil response without error, and a nil node. -/
theorem C8_attr_zero_on_failure_witness :
    Dir.Attr (fun _ => { res := none, err := some (bytes "100: Key not found") })
        63000000000000000000 {} = {} ∧
    File.Attr (fun _ => { res := none, err := none }) 63000000000000000000
        { Name := bytes "port" } = {} ∧
    File.Attr (fun _ => { res := some { Node := none }, err := none }) 63000000000000000000
        { Name := bytes "port" } = {} :=
  ⟨(C8_attr_zero_on_failure (fun _ => { res := none, err := some (bytes "100: Key not found") })
      63000000000000000000 {} {}).1 (Or.inl (by simp)),
   (C8_attr_zero_on_failure (fun _ => { res := none, err := none })
      63000000000000000000 {} { Name := bytes "port" }).2 (Or.inr (Or.inl rfl)),
   (C8_attr_zero_on_failure (fun _ => { res := some { Node := none }, err := none })
      63000000000000000000 {} { Name := bytes "port" }).2
      (Or.inr (Or.inr ⟨{ Node := none }, rfl, rfl⟩))⟩

/-- C9. For two `File.Attr` queries of one file whose gets both carry a node of
value `V`, made at clock readings `t1 ≤ t2`: each result has mode 0444 with no
directory bit, each result's `Mtime`, `Atime` and `Ctime` equal the clock reading
of its own query, the second result's timestamps are not earlier than the first's
and differ from them when `t1 < t2`, and both report the same `Size`. -/
theorem C9_file_attr_repeated (etc1 etc2 : Store) (f : File) (n1 n2 : Node) (V : GoString)
    (t1 t2 : Time)
    (h1 : etc1 (filePath f.Dir f.Name) = { res := some { Node := some n1 }, err := none })
    (h2 : etc2 (filePath f.Dir f.Name) = { res := some { Node := some n2 }, err := none })
    (hV1 : n1.Value = V) (hV2 : n2.Value = V) (hle : t1 ≤ t2) :
    ((File.Attr etc1 t1 f).Mode = 0o444 ∧ (File.Attr etc2 t2 f).Mode = 0o444) ∧
    ((File.Attr etc1 t1 f).Mode &&& ModeDir = 0 ∧ (File.Attr etc2 t2 f).Mode &&& ModeDir = 0) ∧
    ((File.Attr etc1 t1 f).Mtime = t1 ∧ (File.Attr etc1 t1 f).Atime = t1 ∧
      (File.Attr etc1 t1 f).Ctime = t1) ∧
    ((File.Attr etc2 t2 f).Mtime = t2 ∧ (File.Attr etc2 t2 f).Atime = t2 ∧
      (File.Attr etc2 t2 f).Ctime = t2) ∧
    ((File.Attr etc1 t1 f).Mtime ≤ (File.Attr etc2 t2 f).Mtime ∧
      (File.Attr etc1 t1 f).Atime ≤ (File.Attr etc2 t2 f).Atime ∧
      (File.Attr etc1 t1 f).Ctime ≤ (File.Attr etc2 t2 f).Ctime) ∧
    (t1 < t2 → (File.Attr etc1 t1 f).Mtime ≠ (File.Attr etc2 t2 f).Mtime ∧
      (File.Attr etc1 t1 f).Atime ≠ (File.Attr etc2 t2 f).Atime ∧
      (File.Attr etc1 t1 f).Ctime ≠ (File.Attr etc2 t2 f).Ctime) ∧
    (File.Attr etc1 t1 f).Size = (File.Attr etc2 t2 f).Size := by
  rw [FileAttr_of_ok etc1 t1 f n1 h1, FileAttr_of_ok etc2 t2 f n2 h2, hV1, hV2]
  have hreg : (0o444 : Nat) &&& ModeDir = 0 := by decide
  refine ⟨⟨rfl, rfl⟩, ⟨hreg, hreg⟩, ⟨rfl, rfl, rfl⟩, ⟨rfl, rfl, rfl⟩,
    ⟨hle, hle, hle⟩, fun hlt => ⟨ne_of_lt hlt, ne_of_lt hlt, ne_of_lt hlt⟩, rfl⟩

/-- Witness of C9: two queries of "cfg/port", one second apart. -/
theorem C9_file_attr_repeated_witness :
    (File.Attr cfgStore 63000000000000000000
        { Name := bytes "port", Dir := DirPtr.ptr (bytes "cfg") (DirPtr.ptr [] DirPtr.nil) }).Mtime
      ≤ (File.Attr cfgStore 63000000001000000000
        { Name := bytes "port", Dir := DirPtr.ptr (bytes "cfg") (DirPtr.ptr [] DirPtr.nil) }).Mtime ∧
    (File.Attr cfgStore 63000000000000000000
        { Name := bytes "port", Dir := DirPtr.ptr (bytes "cfg") (DirPtr.ptr [] DirPtr.nil) }).Size
      = (File.Attr cfgStore 63000000001000000000
        { Name := bytes "port", Dir := DirPtr.ptr (bytes "cfg") (DirPtr.ptr [] DirPtr.nil) }).Size :=
  have h := C9_file_attr_repeated cfgStore cfgStore
    { Name := bytes "port", Dir := DirPtr.ptr (bytes "cfg") (DirPtr.ptr [] DirPtr.nil) }
    (Node.mk (bytes "/cfg/port") (bytes "8080") false none)
    (Node.mk (bytes "/cfg/port") (bytes "8080") false none) (bytes "8080")
    63000000000000000000 63000000001000000000 rfl rfl rfl rfl (by decide)
  ⟨h.2.2.2.2.1.1, h.2.2.2.2.2.2⟩

theorem splitLoop_le (path : GoString) (i : Nat) : splitLoop path i ≤ i := by
  induction i with
  | zero => simp [splitLoop]
  | succ i ih =>
    unfold splitLoop
    split
    · exact Nat.le_succ_of_le ih
    · exact Nat.le_refl _

theorem splitLoop_no_sep (path : GoString) (i j : Nat)
    (h1 : splitLoop path i ≤ j) (h2 : j < i) : ¬ IsPathSeparator (path.getD j 0) := by
  induction i with
  | zero => omega
  | succ i ih =>
    unfold splitLoop at h1
    split at h1
    · rename_i hns
      by_cases hj : j = i
      · subst hj; exact hns
      · exact ih h1 (by omega)
    · omega

theorem splitLoop_at_sep (path : GoString) (i : Nat) :
    splitLoop path i = 0 ∨ IsPathSeparator (path.getD (splitLoop path i - 1) 0) := by
  induction i with
  | zero => left; simp [splitLoop]
  | succ i ih =>
    unfold splitLoop
    split
    · exact ih
    · rename_i hs
      right
      simpa using hs

theorem Split_spec (path : GoString) :
    path = (Split path).1 ++ (Split path).2 ∧
    Separator ∉ (Split path).2 ∧
    ((Split path).1 = [] ∨ (Split path).1.getLast? = some Separator) := by
  unfold Split
  simp only
  refine ⟨(List.take_append_drop _ _).symm, ?_, ?_⟩
  · intro hmem
    obtain ⟨k, hk, hget⟩ := List.getElem_of_mem hmem
    rw [List.getElem_drop] at hget
    have hk2 : splitLoop path path.length + k < path.length := by
      rw [List.length_drop] at hk; omega
    have := splitLoop_no_sep path path.length (splitLoop path path.length + k) (by omega) hk2
    apply this
    unfold IsPathSeparator
    rw [List.getD_eq_getElem _ _ hk2]
    exact hget
  · by_cases h0 : splitLoop path path.length = 0
    · left; rw [h0]; rfl
    · right
      have hle := splitLoop_le path path.length
      rcases splitLoop_at_sep path path.length with hz | hs
      · exact absurd hz h0
      · unfold IsPathSeparator at hs
        rw [List.getD_eq_getElem _ _ (by omega)] at hs
        rw [List.getLast?_eq_getElem?, List.length_take, Nat.min_eq_left hle,
          List.getElem?_take_of_lt (by omega), List.getElem?_eq_getElem (by omega), hs]


theorem readDirLoop_eq (cs : List Node) :
    ∀ (i : Nat) (pre : List Dirent), pre.length = i + 2 →
      readDirLoop (cs.map some) i (pre ++ List.replicate cs.length ({} : Dirent)) =
        Outcome.returned (pre ++ cs.map (fun node =>
          ({ Name := (Split node.Key).2,
             Typ := if node.Dir = true then DirentType.DT_Dir else DirentType.DT_File } : Dirent))) := by
  induction cs with
  | nil => intro i pre _; simp [readDirLoop]
  | cons node cs ih =>
    intro i pre hpre
    have hset : ∀ e : Dirent,
        (pre ++ List.replicate (node :: cs).length ({} : Dirent)).set (i + 2) e =
          (pre ++ [e]) ++ List.replicate cs.length ({} : Dirent) := by
      intro e
      rw [← hpre, List.length_cons, List.replicate_succ]
      simp
    rw [List.map_cons]
    unfold readDirLoop
    simp only
    rw [hset, ih (i + 1) _ (by simp [hpre])]
    simp

theorem ReadDir_listing (etc : Store) (d : Etcdfs.Dir) (node : Node) (cs : List Node)
    (h : etc (filePath d.addr []) = { res := some { Node := some node }, err := none })
    (hcs : node.Nodes.getD [] = cs.map some) :
    Dir.ReadDir etc d =
      Outcome.returned
        (some ({ Name := bytes ".", Typ := DirentType.DT_Dir } ::
               { Name := bytes "..", Typ := DirentType.DT_Dir } ::
               cs.map (fun c =>
                 ({ Name := (Split c.Key).2,
                    Typ := if c.Dir = true then DirentType.DT_Dir else DirentType.DT_File } : Dirent))),
         none) := by
  rw [ReadDir_of_ok etc d node h]
  cases hn : node.Nodes with
  | none =>
    rw [hn] at hcs
    have hnil : cs = [] := by
      cases cs with
      | nil => rfl
      | cons c cs => simp at hcs
    subst hnil
    simp [lenNodes, List.replicate]
  | some nodes =>
    rw [hn] at hcs
    have hnodes : nodes = cs.map some := hcs
    subst hnodes
    have h2 : ((List.replicate (lenNodes (some (cs.map some)) + 2) ({} : Dirent)).set 0
          { Name := bytes ".", Typ := DirentType.DT_Dir }).set 1
          { Name := bytes "..", Typ := DirentType.DT_Dir } =
        [{ Name := bytes ".", Typ := DirentType.DT_Dir },
         { Name := bytes "..", Typ := DirentType.DT_Dir }] ++
          List.replicate cs.length ({} : Dirent) := by
      simp [lenNodes, List.replicate_succ]
    simp only [h2]
    rw [readDirLoop_eq cs 0 [{ Name := bytes ".", Typ := DirentType.DT_Dir },
      { Name := bytes "..", Typ := DirentType.DT_Dir }] rfl]
    rfl

/-! ## Directory listing -/

/-- C1, as stated, fails: a response with a nil error and a node can hold a nil
child pointer, and `ReadDir` then does not succeed. On the directory "/cfg" whose
children are the leaf "/cfg/port" and a nil pointer, the loop reads `node.Key` of
the nil child and the call panics; it returns no listing. -/
theorem C1_counterexample_nil_child_panics :
    nilChildStore (filePath (Dir.addr { Name := bytes "cfg", Dir := DirPtr.ptr [] DirPtr.nil }) []) =
      { res := some { Node := some (Node.mk (bytes "/cfg") [] true
          (some [some (Node.mk (bytes "/cfg/port") (bytes "8080") false none), none])) },
        err := none } ∧
    Dir.ReadDir nilChildStore { Name := bytes "cfg", Dir := DirPtr.ptr [] DirPtr.nil } =
      Outcome.panicked ∧
    ¬ ∃ dirList : List Dirent,
      Dir.ReadDir nilChildStore { Name := bytes "cfg", Dir := DirPtr.ptr [] DirPtr.nil } =
        Outcome.returned (some dirList, none) := by
  have hp : Dir.ReadDir nilChildStore { Name := bytes "cfg", Dir := DirPtr.ptr [] DirPtr.nil } =
      Outcome.panicked := by decide
  refine ⟨rfl, hp, ?_⟩
  rintro ⟨dirList, hl⟩
  rw [hp] at hl
  exact Outcome.noConfusion hl

/-- C1, amended. When the get of `Dir.ReadDir` carries a node with children list
`cs` (empty for a nil or empty slice) none of whose elements is a nil pointer,
`ReadDir` returns, with a nil error, a list of exactly `len(cs) + 2` entries:
entry 0 is "." of type directory, entry 1 is ".." of type directory, and entry
`i + 2` has type directory if `cs[i].Dir` is set and regular file otherwise, and
is named by the part of `cs[i].Key` after its last "/": the name holds no "/" and
the key is the name appended to a string that is empty or ends in "/". The
children keep the order the store returned them in. -/
theorem C1_readdir_listing_amended (etc : Store) (d : Etcdfs.Dir) (node : Node)
    (cs : List Node)
    (h : etc (filePath d.addr []) = { res := some { Node := some node }, err := none })
    (hcs : node.Nodes.getD [] = cs.map some) :
    ∃ dirList : List Dirent,
      Dir.ReadDir etc d = Outcome.returned (some dirList, none) ∧
      dirList.length = cs.length + 2 ∧
      dirList[0]? = some { Name := bytes ".", Typ := DirentType.DT_Dir } ∧
      dirList[1]? = some { Name := bytes "..", Typ := DirentType.DT_Dir } ∧
      ∀ (i : Nat) (hi : i < cs.length),
        ∃ e : Dirent, dirList[i + 2]? = some e ∧
          e.Typ = (if (cs[i]).Dir = true then DirentType.DT_Dir else DirentType.DT_File) ∧
          Separator ∉ e.Name ∧
          ∃ front : GoString, (cs[i]).Key = front ++ e.Name ∧
            (front = [] ∨ front.getLast? = some Separator) := by
  refine ⟨_, ReadDir_listing etc d node cs h hcs, by simp, by simp, by simp, ?_⟩
  intro i hi
  refine ⟨{ Name := (Split (cs[i]).Key).2,
            Typ := if (cs[i]).Dir = true then DirentType.DT_Dir else DirentType.DT_File },
    ?_, rfl, (Split_spec _).2.1, (Split (cs[i]).Key).1, (Split_spec _).1, (Split_spec _).2.2⟩
  simp [List.getElem?_eq_getElem hi]

/-- Witness of C1 (amended): listing "cfg", whose one child is the leaf
"/cfg/port". -/
theorem C1_readdir_listing_amended_witness :
    ∃ dirList : List Dirent,
      Dir.ReadDir cfgStore { Name := bytes "cfg", Dir := DirPtr.ptr [] DirPtr.nil } =
        Outcome.returned (some dirList, none) ∧
      dirList.length = 3 ∧
      dirList[0]? = some { Name := bytes ".", Typ := DirentType.DT_Dir } ∧
      dirList[1]? = some { Name := bytes "..", Typ := DirentType.DT_Dir } :=
  match C1_readdir_listing_amended cfgStore
      { Name := bytes "cfg", Dir := DirPtr.ptr [] DirPtr.nil }
      (Node.mk (bytes "/cfg") [] true
        (some [some (Node.mk (bytes "/cfg/port") (bytes "8080") false none)]))
      [Node.mk (bytes "/cfg/port") (bytes "8080") false none] rfl rfl with
  | ⟨dirList, hrd, hlen, h0, h1, _⟩ => ⟨dirList, hrd, hlen, h0, h1⟩

/-! ## Helper lemmas: `filepath.Clean` on paths made of plain elements -/

theorem takeWhile_elem (s tail : GoString) (hs : Separator ∉ s) (htail : endOrSep tail = true) :
    (s ++ tail).takeWhile (fun b => decide (¬ IsPathSeparator b)) = s := by
  induction s with
  | nil =>
    cases tail with
    | nil => rfl
    | cons c t =>
      have hc : IsPathSeparator c := by simpa [endOrSep] using htail
      simp [List.takeWhile, hc]
  | cons a s ih =>
    have ha : ¬ IsPathSeparator a := fun h => hs (by rw [← h]; exact List.mem_cons_self _ _)
    have hs2 : Separator ∉ s := fun h => hs (List.mem_cons_of_mem _ h)
    simpa [List.takeWhile, ha] using ih hs2

theorem dropWhile_elem (s tail : GoString) (hs : Separator ∉ s) (htail : endOrSep tail = true) :
    (s ++ tail).dropWhile (fun b => decide (¬ IsPathSeparator b)) = tail := by
  induction s with
  | nil =>
    cases tail with
    | nil => rfl
    | cons c t =>
      have hc : IsPathSeparator c := by simpa [endOrSep] using htail
      simp [List.dropWhile, hc]
  | cons a s ih =>
    have ha : ¬ IsPathSeparator a := fun h => hs (by rw [← h]; exact List.mem_cons_self _ _)
    have hs2 : Separator ∉ s := fun h => hs (List.mem_cons_of_mem _ h)
    simpa [List.dropWhile, ha] using ih hs2

theorem endOrSep_elem (t tail : GoString) (ht : Separator ∉ t) (hne : t ≠ []) :
    endOrSep (t ++ tail) = false := by
  cases t with
  | nil => exact absurd rfl hne
  | cons a t =>
    have ha : ¬ IsPathSeparator a := fun h => ht (by rw [← h]; exact List.mem_cons_self _ _)
    simp [endOrSep, ha]

/-- One iteration of the loop at the start of a real path element `s` (no
separator, neither "." nor ".."), followed by the end of the path or a separator. -/
theorem cleanLoop_elem (rooted : Bool) (fuel : Nat) (s tail out : GoString) (dotdot : Nat)
    (hne : s ≠ []) (hs : Separator ∉ s) (hdot : s ≠ [dot]) (hdd : s ≠ [dot, dot])
    (htail : endOrSep tail = true) :
    cleanLoop rooted (fuel + 1) (s ++ tail) out dotdot =
      cleanLoop rooted fuel tail
        ((if (rooted = true ∧ out.length ≠ 1) ∨ (rooted = false ∧ out.length ≠ 0) then
            out ++ [Separator]
          else out) ++ s) dotdot := by
  cases s with
  | nil => exact absurd rfl hne
  | cons c t =>
    have hc : ¬ IsPathSeparator c := fun h => hs (by rw [← h]; exact List.mem_cons_self _ _)
    have ht : Separator ∉ t := fun h => hs (List.mem_cons_of_mem _ h)
    have h2 : ¬ (c = dot ∧ endOrSep (t ++ tail) = true) := by
      rintro ⟨hcd, he⟩
      have htne : t ≠ [] := by
        rintro rfl
        exact hdot (by rw [hcd])
      rw [endOrSep_elem t tail ht htne] at he
      exact Bool.false_ne_true he
    have h3 : ¬ (c = dot ∧ (t ++ tail).head? = some dot ∧ endOrSep (t ++ tail).tail = true) := by
      rintro ⟨hcd, hh, he⟩
      cases t with
      | nil => exact hdot (by rw [hcd])
      | cons c1 t1 =>
        have hc1 : c1 = dot := by simpa using hh
        have ht1 : Separator ∉ t1 := fun h => ht (List.mem_cons_of_mem _ h)
        have ht1ne : t1 ≠ [] := by
          rintro rfl
          exact hdd (by rw [hcd, hc1])
        have he2 : endOrSep (t1 ++ tail) = true := by simpa using he
        rw [endOrSep_elem t1 tail ht1 ht1ne] at he2
        exact Bool.false_ne_true he2
    have htw := takeWhile_elem (c :: t) tail hs htail
    have hdw := dropWhile_elem (c :: t) tail hs htail
    rw [List.cons_append] at htw hdw ⊢
    rw [cleanLoop]
    simp only [if_neg hc, if_neg h2, if_neg h3, htw, hdw]

/-- One iteration of the loop at a separator. -/
theorem cleanLoop_sep (rooted : Bool) (fuel : Nat) (t out : GoString) (dotdot : Nat) :
    cleanLoop rooted (fuel + 1) (Separator :: t) out dotdot = cleanLoop rooted fuel t out dotdot := by
  rw [cleanLoop]
  simp [IsPathSeparator]

theorem cleanLoop_done (rooted : Bool) (fuel : Nat) (out : GoString) (dotdot : Nat) :
    cleanLoop rooted fuel [] out dotdot = out := by
  cases fuel <;> simp [cleanLoop]

theorem dropWhile_length_le (l : GoString) :
    (l.dropWhile (fun b => decide (¬ IsPathSeparator b))).length ≤ l.length := by
  induction l with
  | nil => simp
  | cons a l ih =>
    rw [List.dropWhile_cons]
    split
    · exact Nat.le_succ_of_le ih
    · exact Nat.le_refl _

/-- The iteration bound of `cleanLoop` is never what ends the loop: any two
bounds of at least the number of bytes left give the same result. -/
theorem cleanLoop_fuel (rooted : Bool) :
    ∀ (f1 f2 : Nat) (rest out : GoString) (dotdot : Nat),
      rest.length ≤ f1 → rest.length ≤ f2 →
      cleanLoop rooted f1 rest out dotdot = cleanLoop rooted f2 rest out dotdot := by
  intro f1
  induction f1 with
  | zero =>
    intro f2 rest out dotdot h1 _
    have : rest = [] := List.length_eq_zero.mp (Nat.le_zero.mp h1)
    subst this
    rw [cleanLoop_done, cleanLoop_done]
  | succ f1 ih =>
    intro f2 rest out dotdot h1 h2
    cases rest with
    | nil => rw [cleanLoop_done, cleanLoop_done]
    | cons c t =>
      obtain ⟨g, rfl⟩ : ∃ g, f2 = g + 1 := ⟨f2 - 1, by simp at h2; omega⟩
      have ht1 : t.length ≤ f1 := by simpa using h1
      have ht2 : t.length ≤ g := by simpa using h2
      have htt1 : t.tail.length ≤ f1 := by rw [List.length_tail]; omega
      have htt2 : t.tail.length ≤ g := by rw [List.length_tail]; omega
      rw [cleanLoop, cleanLoop]
      have hdrop : ¬ IsPathSeparator c →
          ((c :: t).dropWhile (fun b => decide (¬ IsPathSeparator b))).length ≤ t.length := by
        intro hc
        rw [List.dropWhile_cons, if_pos (by simpa using hc)]
        exact dropWhile_length_le t
      split_ifs with hsep
      all_goals first
        | exact ih g _ _ _ ht1 ht2
        | exact ih g _ _ _ htt1 htt2
        | exact ih g _ _ _ (le_trans (hdrop hsep) ht1) (le_trans (hdrop hsep) ht2)

theorem stringsJoin_cons_cons (e e2 : GoString) (es : List GoString) (sep : GoString) :
    stringsJoin (e :: e2 :: es) sep = e ++ sep ++ stringsJoin (e2 :: es) sep := rfl

/-- The loop copies a path of plain elements, each preceded by a separator, when
the buffer is not empty and the path is not rooted. -/
theorem cleanLoop_joined (segs : List GoString) (hseg : ∀ s ∈ segs, plainElem s)
    (hne : segs ≠ []) :
    ∀ (fuel : Nat) (out : GoString) (dotdot : Nat), out ≠ [] →
      (stringsJoin segs [Separator]).length + 1 ≤ fuel →
      cleanLoop false fuel (Separator :: stringsJoin segs [Separator]) out dotdot =
        out ++ Separator :: stringsJoin segs [Separator] := by
  induction segs with
  | nil => exact absurd rfl hne
  | cons s rest ih =>
    intro fuel out dotdot hout hfuel
    obtain ⟨hsne, hssep, hsdot, hsdd⟩ := hseg s (List.mem_cons_self _ _)
    have hslen : 1 ≤ s.length := List.length_pos.mpr hsne
    have hif : (((false : Bool) = true ∧ out.length ≠ 1) ∨ ((false : Bool) = false ∧ out.length ≠ 0)) := by
      right
      exact ⟨rfl, fun h => hout (List.length_eq_zero.mp h)⟩
    cases rest with
    | nil =>
      have hJ : stringsJoin [s] [Separator] = s := rfl
      rw [hJ] at hfuel ⊢
      obtain ⟨f, rfl⟩ : ∃ f, fuel = f + 1 + 1 := ⟨fuel - 2, by omega⟩
      rw [cleanLoop_sep]
      have h := cleanLoop_elem false f s [] out dotdot hsne hssep hsdot hsdd rfl
      rw [List.append_nil] at h
      rw [h, cleanLoop_done, if_pos hif]
      simp
    | cons s2 rest2 =>
      rw [stringsJoin_cons_cons] at hfuel ⊢
      simp only [List.length_append, List.length_singleton] at hfuel
      obtain ⟨f, rfl⟩ : ∃ f, fuel = f + 1 + 1 := ⟨fuel - 2, by omega⟩
      rw [cleanLoop_sep]
      have h := cleanLoop_elem false f s (Separator :: stringsJoin (s2 :: rest2) [Separator]) out
        dotdot hsne hssep hsdot hsdd (by simp [endOrSep, IsPathSeparator])
      have hJ : s ++ [Separator] ++ stringsJoin (s2 :: rest2) [Separator] =
          s ++ Separator :: stringsJoin (s2 :: rest2) [Separator] := by simp
      rw [hJ, h, if_pos hif]
      rw [ih (fun x hx => hseg x (List.mem_cons_of_mem _ hx)) (List.cons_ne_nil _ _) f _ dotdot
        (by simp) (by omega)]
      simp

/-- The function `Clean` is the identity on a path of plain elements joined by separators. -/
theorem Clean_joined (segs : List GoString) (hseg : ∀ s ∈ segs, plainElem s) (hne : segs ≠ []) :
    Clean (stringsJoin segs [Separator]) = stringsJoin segs [Separator] := by
  cases segs with
  | nil => exact absurd rfl hne
  | cons s rest =>
    obtain ⟨hsne, hssep, hsdot, hsdd⟩ := hseg s (List.mem_cons_self _ _)
    obtain ⟨tail, hJ, htail⟩ : ∃ tail, stringsJoin (s :: rest) [Separator] = s ++ tail ∧
        (tail = [] ∨ ∃ s2 rest2, rest = s2 :: rest2 ∧
          tail = Separator :: stringsJoin (s2 :: rest2) [Separator]) := by
      cases rest with
      | nil => exact ⟨[], by simp [stringsJoin], Or.inl rfl⟩
      | cons s2 rest2 =>
        exact ⟨Separator :: stringsJoin (s2 :: rest2) [Separator],
          by rw [stringsJoin_cons_cons]; simp, Or.inr ⟨s2, rest2, rfl, rfl⟩⟩
    rw [hJ]
    cases s with
    | nil => exact absurd rfl hsne
    | cons c t =>
      have hc : ¬ IsPathSeparator c := fun h => hssep (by rw [← h]; exact List.mem_cons_self _ _)
      have hend : endOrSep tail = true := by
        rcases htail with rfl | ⟨s2, rest2, -, rfl⟩
        · rfl
        · simp [endOrSep, IsPathSeparator]
      have hstep := cleanLoop_elem false (t ++ tail).length (c :: t) tail [] 0 hsne hssep hsdot hsdd
        hend
      have hloop : cleanLoop false (c :: (t ++ tail)).length (c :: (t ++ tail)) [] 0 =
          c :: t ++ tail := by
        rw [List.length_cons, ← List.cons_append, hstep]
        simp only [List.length_nil, ne_eq, not_true_eq_false, and_false, or_false,
          Bool.false_eq_true, false_and, if_false, List.nil_append]
        rcases htail with rfl | ⟨s2, rest2, hrest, rfl⟩
        · rw [cleanLoop_done]; simp
        · rw [cleanLoop_joined (s2 :: rest2)
            (fun x hx => hseg x (by rw [hrest]; exact List.mem_cons_of_mem _ hx))
            (List.cons_ne_nil _ _) _ _ 0 (List.cons_ne_nil _ _)
            (by simp only [List.length_append, List.length_cons]; omega)]
      rw [List.cons_append]
      unfold Clean
      simp only [hc, decide_False, Bool.false_eq_true, if_false]
      rw [hloop]
      simp

/-- The function `Clean` drops the separator after a single plain element. -/
theorem Clean_trailing_sep (n : GoString) (hn : plainElem n) : Clean (n ++ [Separator]) = n := by
  obtain ⟨hne, hsep, hdot, hdd⟩ := hn
  cases n with
  | nil => exact absurd rfl hne
  | cons c t =>
    have hc : ¬ IsPathSeparator c := fun h => hsep (by rw [← h]; exact List.mem_cons_self _ _)
    have hstep := cleanLoop_elem false (t ++ [Separator]).length (c :: t) [Separator] [] 0
      hne hsep hdot hdd (by simp [endOrSep, IsPathSeparator])
    have hloop : cleanLoop false (c :: (t ++ [Separator])).length (c :: (t ++ [Separator])) [] 0 =
        c :: t := by
      rw [List.length_cons, ← List.cons_append, hstep]
      simp only [List.length_nil, ne_eq, not_true_eq_false, and_false, or_false,
        Bool.false_eq_true, false_and, if_false, List.nil_append]
      rw [List.length_append, List.length_singleton, cleanLoop_sep, cleanLoop_done]
    rw [List.cons_append]
    unfold Clean
    simp only [hc, decide_False, Bool.false_eq_true, if_false]
    rw [hloop]
    simp

/-- Joining a name that holds no separator with the empty string gives the name. -/
theorem Join_empty_right (n : GoString) (hn : Separator ∉ n) : Join [n, []] = n := by
  by_cases hne : n = []
  · subst hne; rfl
  · have hJ : Join [n, []] = Clean (n ++ [Separator]) := by
      simp [Join, hne, stringsJoin]
    rw [hJ]
    by_cases hdot : n = [dot]
    · subst hdot; decide
    · by_cases hdd : n = [dot, dot]
      · subst hdd; decide
      · exact Clean_trailing_sep n ⟨hne, hn, hdot, hdd⟩

/-- Joining a plain element in front of a path of plain elements. -/
theorem Join_joined (n : GoString) (segs : List GoString)
    (hn : plainElem n) (hseg : ∀ s ∈ segs, plainElem s) :
    Join [n, stringsJoin segs [Separator]] = stringsJoin (n :: segs) [Separator] := by
  cases segs with
  | nil =>
    have h : stringsJoin ([] : List GoString) [Separator] = [] := rfl
    rw [h, Join_empty_right n hn.2.1]
    rfl
  | cons s rest =>
    have hJ : Join [n, stringsJoin (s :: rest) [Separator]] =
        Clean (stringsJoin (n :: s :: rest) [Separator]) := by
      simp [Join, hn.1, stringsJoin]
    rw [hJ]
    exact Clean_joined (n :: s :: rest)
      (fun x hx => by
        rcases List.mem_cons.mp hx with rfl | hx
        · exact hn
        · exact hseg x hx)
      (List.cons_ne_nil _ _)

theorem stringsJoin_ne_nil (segs : List GoString) (hseg : ∀ s ∈ segs, plainElem s)
    (hne : segs ≠ []) : stringsJoin segs [Separator] ≠ [] := by
  cases segs with
  | nil => exact absurd rfl hne
  | cons s rest =>
    have hs := (hseg s (List.mem_cons_self _ _)).1
    cases rest with
    | nil => exact hs
    | cons s2 rest2 =>
      rw [stringsJoin_cons_cons]
      simp [hs]

theorem filePath_ptr (name : GoString) (parent : DirPtr) (filename : GoString) :
    filePath (DirPtr.ptr name parent) filename = filePath parent (Join [name, filename]) := rfl

/-- Resolving the innermost of the handles nested under `d0` with plain names is
resolving the joined names against `d0`. -/
theorem filePath_nestDir (segs : List GoString) (hseg : ∀ s ∈ segs, plainElem s) :
    ∀ d0 : Etcdfs.Dir,
      filePath (nestDir d0 segs).addr [] = filePath d0.addr (stringsJoin segs [Separator]) := by
  induction segs with
  | nil => intro d0; rfl
  | cons n ns ih =>
    intro d0
    have hn := hseg n (List.mem_cons_self _ _)
    have hns : ∀ s ∈ ns, plainElem s := fun x hx => hseg x (List.mem_cons_of_mem _ hx)
    show filePath (nestDir { Name := n, Dir := d0.addr } ns).addr [] = _
    rw [ih hns { Name := n, Dir := d0.addr }]
    show filePath (DirPtr.ptr n d0.addr) (stringsJoin ns [Separator]) = _
    rw [filePath_ptr, Join_joined n ns hn hns]

/-- Resolving a non-empty path of plain elements against the root handle. -/
theorem filePath_root_joined (segs : List GoString) (hseg : ∀ s ∈ segs, plainElem s)
    (hne : segs ≠ []) :
    filePath (Dir.addr {}) (stringsJoin segs [Separator]) = stringsJoin segs [Separator] := by
  have hJ : Join [[], stringsJoin segs [Separator]] = Clean (stringsJoin segs [Separator]) := by
    simp [Join, stringsJoin_ne_nil segs hseg hne, stringsJoin]
  show filePath DirPtr.nil (Join [[], stringsJoin segs [Separator]]) = _
  rw [hJ, Clean_joined segs hseg hne]
  rfl

/-! ## Path resolution -/

/-- C5. For a non-empty sequence of names, each non-empty, without "/" and
different from "." and "..": resolving the innermost of the handles nested under
the root `Dir{}` with these names, with an empty trailing segment, equals
resolving the names joined by "/" against the root, and both are that joined
string, the first name outermost and the last name last. -/
theorem C5_nested_resolution_eq_direct (segs : List GoString) (hne : segs ≠ [])
    (hseg : ∀ n ∈ segs, n ≠ [] ∧ Separator ∉ n ∧ n ≠ bytes "." ∧ n ≠ bytes "..") :
    filePath (nestDir {} segs).addr [] = filePath (Dir.addr {}) (stringsJoin segs (bytes "/")) ∧
    filePath (Dir.addr {}) (stringsJoin segs (bytes "/")) = stringsJoin segs (bytes "/") ∧
    filePath (nestDir {} segs).addr [] = stringsJoin segs (bytes "/") := by
  have hplain : ∀ s ∈ segs, plainElem s := hseg
  have hsl : bytes "/" = [Separator] := by decide
  rw [hsl]
  have h1 := filePath_nestDir segs hplain {}
  have h2 := filePath_root_joined segs hplain hne
  exact ⟨h1, h2, h1.trans h2⟩

/-- Witness of C5: the handles of "a", "b", "c" nested under the root. -/
theorem C5_nested_resolution_eq_direct_witness :
    filePath (DirPtr.ptr (bytes "c") (DirPtr.ptr (bytes "b") (DirPtr.ptr (bytes "a")
      (DirPtr.ptr [] DirPtr.nil)))) [] = bytes "a/b/c" ∧
    filePath (DirPtr.ptr [] DirPtr.nil) (bytes "a/b/c") = bytes "a/b/c" :=
  have h := C5_nested_resolution_eq_direct [bytes "a", bytes "b", bytes "c"] (by decide)
    (by decide)
  ⟨h.2.2, h.2.1⟩

/-- C6, as stated, fails: for the handle named "a/" with no parent, resolving the
bare handle gives "a" while resolving its name on its parent gives "a/". -/
theorem C6_counterexample_trailing_slash_name :
    filePath (Dir.addr { Name := bytes "a/", Dir := DirPtr.nil }) [] = bytes "a" ∧
    filePath DirPtr.nil (bytes "a/") = bytes "a/" ∧
    filePath (Dir.addr { Name := bytes "a/", Dir := DirPtr.nil }) [] ≠
      filePath (Dir.Dir { Name := bytes "a/", Dir := DirPtr.nil })
        (Dir.Name { Name := bytes "a/", Dir := DirPtr.nil }) := by
  decide

/-- C6, amended. For every directory handle `d` whose name holds no "/" (any such
name, the empty one and "." and ".." included; parent present or absent),
`filePath(&d, "") = filePath(d.Dir, d.Name)`. -/
theorem C6_bare_handle_amended (d : Etcdfs.Dir) (hname : Separator ∉ d.Name) :
    filePath d.addr [] = filePath d.Dir d.Name := by
  show filePath (DirPtr.ptr d.Name d.Dir) [] = _
  rw [filePath_ptr, Join_empty_right d.Name hname]

/-- Witness of C6 (amended): the handle of "cfg" under the root. -/
theorem C6_bare_handle_amended_witness :
    filePath (Dir.addr { Name := bytes "cfg", Dir := DirPtr.ptr [] DirPtr.nil }) [] =
      filePath (DirPtr.ptr [] DirPtr.nil) (bytes "cfg") :=
  C6_bare_handle_amended { Name := bytes "cfg", Dir := DirPtr.ptr [] DirPtr.nil } (by decide)

/-- C10, as stated, fails: on the handle of "a" under the root, a lookup of the
name "/.." queries the key "." and, answered with a directory node, returns a
`Dir` handle whose own operations query the key "a". -/
theorem C10_counterexample_name_with_slash :
    Dir.Lookup emptyDirStore { Name := bytes "a", Dir := DirPtr.ptr [] DirPtr.nil } (bytes "/..") =
      (some (FsNode.dir
        { Name := bytes "/..", Dir := DirPtr.ptr (bytes "a") (DirPtr.ptr [] DirPtr.nil) }), none) ∧
    filePath (Dir.addr { Name := bytes "a", Dir := DirPtr.ptr [] DirPtr.nil }) (bytes "/..") =
      bytes "." ∧
    filePath (Dir.addr
      { Name := bytes "/..", Dir := DirPtr.ptr (bytes "a") (DirPtr.ptr [] DirPtr.nil) }) [] =
      bytes "a" ∧
    filePath (Dir.addr
      { Name := bytes "/..", Dir := DirPtr.ptr (bytes "a") (DirPtr.ptr [] DirPtr.nil) }) [] ≠
      filePath (Dir.addr { Name := bytes "a", Dir := DirPtr.ptr [] DirPtr.nil }) (bytes "/..") := by
  decide

/-- C10, amended. For every handle `d` and name `n`: a `File` handle that
`Dir.Lookup(n)` on `d` returns queries, for `File.Attr` and `File.ReadAll`, the
key `filePath(&d, n)` the lookup queried; and when `n` holds no "/", a `Dir`
handle that the lookup returns queries that same key for `Dir.Attr` and
`Dir.ReadDir`. -/
theorem C10_lookup_key_amended (etc : Store) (d : Etcdfs.Dir) (n : GoString) :
    (∀ f : File, Dir.Lookup etc d n = (some (FsNode.file f), none) →
      f = { Name := n, Dir := d.addr } ∧ filePath f.Dir f.Name = filePath d.addr n) ∧
    (Separator ∉ n → ∀ c : Etcdfs.Dir, Dir.Lookup etc d n = (some (FsNode.dir c), none) →
      c = { Name := n, Dir := d.addr } ∧ filePath c.addr [] = filePath d.addr n) := by
  rcases getFailed_cases (etc (filePath d.addr n)) with hf | ⟨node, hn⟩
  · rw [Lookup_of_failed etc d n hf]
    exact ⟨fun f h => by simp at h, fun _ c h => by simp at h⟩
  · rw [Lookup_of_ok etc d n node hn]
    constructor
    · intro f h
      by_cases hd : node.Dir = true
      · simp [hd] at h
      · rw [if_neg hd] at h
        have hf : f = { Name := n, Dir := d.addr } :=
          (FsNode.file.inj (Option.some.inj (Prod.mk.inj h).1)).symm
        subst hf
        exact ⟨rfl, rfl⟩
    · intro hsep c h
      by_cases hd : node.Dir = true
      · rw [if_pos hd] at h
        have hc : c = { Name := n, Dir := d.addr } :=
          (FsNode.dir.inj (Option.some.inj (Prod.mk.inj h).1)).symm
        subst hc
        refine ⟨rfl, ?_⟩
        show filePath (DirPtr.ptr n d.addr) [] = _
        rw [filePath_ptr, Join_empty_right n hsep]
      · simp [hd] at h

/-- Witness of C10 (amended): looking up "port", then "sub", in "cfg". -/
theorem C10_lookup_key_amended_witness :
    filePath (DirPtr.ptr (bytes "cfg") (DirPtr.ptr [] DirPtr.nil)) (bytes "port") =
      filePath (Dir.addr { Name := bytes "cfg", Dir := DirPtr.ptr [] DirPtr.nil }) (bytes "port") ∧
    filePath (Dir.addr
      { Name := bytes "sub", Dir := DirPtr.ptr (bytes "cfg") (DirPtr.ptr [] DirPtr.nil) }) [] =
      filePath (Dir.addr { Name := bytes "cfg", Dir := DirPtr.ptr [] DirPtr.nil }) (bytes "sub") :=
  ⟨((C10_lookup_key_amended cfgStore { Name := bytes "cfg", Dir := DirPtr.ptr [] DirPtr.nil }
      (bytes "port")).1
      { Name := bytes "port", Dir := DirPtr.ptr (bytes "cfg") (DirPtr.ptr [] DirPtr.nil) }
      (by decide)).2,
   ((C10_lookup_key_amended emptyDirStore { Name := bytes "cfg", Dir := DirPtr.ptr [] DirPtr.nil }
      (bytes "sub")).2 (by decide)
      { Name := bytes "sub", Dir := DirPtr.ptr (bytes "cfg") (DirPtr.ptr [] DirPtr.nil) }
      (by decide)).2⟩

end Etcdfs
